import Mathlib

/-!
Shallow embedding of the minimax-vscode provider core: the JSON value model
used to model loosely typed upstream payloads, the message mapper, the tool
schema normalizer, the streaming response reconstructor, the client error
classifier and the token length estimator, together with theorems checking
the specification of each component.
-/

namespace Minimax

/-- A JSON number as produced by parsing: value = mantissa * 10 ^ exponent,
normalized so that a nonzero mantissa is not divisible by 10 (this models
the fact that JavaScript numbers identify 1, 1.0 and 10e-1). -/
structure JsonNumber where
  mantissa : Int
  exponent : Int
deriving Repr

/-- JSON values; models the loosely typed runtime values flowing through the
provider (chunk deltas, tool fragments, schemas, parsed arguments). -/
inductive Json where
  | null : Json
  | bool (b : Bool) : Json
  | num (n : JsonNumber) : Json
  | str (s : String) : Json
  | arr (elems : List Json) : Json
  | obj (fields : List (String × Json)) : Json
deriving Repr

/-- Field lookup on a JSON value: only objects have named fields (models
reading a property off an unknown JavaScript value after an object check;
first occurrence wins, parsed objects have unique keys). -/
def Json.getField : Json → String → Option Json
  | .obj fields, key => (fields.find? (fun f => f.1 = key)).map (·.2)
  | _, _ => none

/-- Normalize a mantissa/exponent pair by moving factors of ten from the
mantissa into the exponent; fuel bounds the loop. -/
def stripTenFactors : Nat → Int → Int → JsonNumber
  | 0, m, e => ⟨m, e⟩
  | fuel + 1, m, e =>
    if m ≠ 0 ∧ m % 10 = 0 then stripTenFactors fuel (m / 10) (e + 1) else ⟨m, e⟩

/-- Build a normalized JSON number. -/
def mkJsonNumber (m : Int) (e : Int) : JsonNumber :=
  if m = 0 then ⟨0, 0⟩ else stripTenFactors m.natAbs m e

/-- JSON whitespace as accepted by JSON.parse. -/
def isJsonWs (c : Char) : Bool :=
  c = ' ' ∨ c = '\t' ∨ c = '\n' ∨ c = '\r'

/-- Skip leading JSON whitespace. -/
def skipWs (cs : List Char) : List Char :=
  cs.dropWhile isJsonWs

/-- Hexadecimal digit value. -/
def hexVal (c : Char) : Option Nat :=
  if '0' ≤ c ∧ c ≤ '9' then some (c.toNat - '0'.toNat)
  else if 'a' ≤ c ∧ c ≤ 'f' then some (c.toNat - 'a'.toNat + 10)
  else if 'A' ≤ c ∧ c ≤ 'F' then some (c.toNat - 'A'.toNat + 10)
  else none

/-- Parse the body of a JSON string literal (after the opening quote),
returning the decoded characters and the remaining input. -/
def parseStringChars : List Char → Option (List Char × List Char)
  | [] => none
  | c :: rest =>
    if c = '"' then some ([], rest)
    else if c = '\\' then
      match rest with
      | [] => none
      | 'u' :: h1 :: h2 :: h3 :: h4 :: rest2 =>
        match hexVal h1, hexVal h2, hexVal h3, hexVal h4 with
        | some a, some b, some cc, some d =>
          (parseStringChars rest2).map (fun r =>
            (Char.ofNat (((a * 16 + b) * 16 + cc) * 16 + d) :: r.1, r.2))
        | _, _, _, _ => none
      | e :: rest2 =>
        let dec : Option Char :=
          if e = '"' then some '"'
          else if e = '\\' then some '\\'
          else if e = '/' then some '/'
          else if e = 'b' then some (Char.ofNat 8)
          else if e = 'f' then some (Char.ofNat 12)
          else if e = 'n' then some '\n'
          else if e = 'r' then some '\r'
          else if e = 't' then some '\t'
          else none
        match dec with
        | some d => (parseStringChars rest2).map (fun r => (d :: r.1, r.2))
        | none => none
    else if c.toNat < 32 then none
    else (parseStringChars rest).map (fun r => (c :: r.1, r.2))

/-- Parse the digits of a natural number. -/
def digitsToNat (ds : List Char) : Nat :=
  ds.foldl (fun acc d => acc * 10 + (d.toNat - '0'.toNat)) 0

/-- Parse a JSON number literal starting at the head of the input;
follows the JSON grammar (optional minus, integer part with no leading
zeros, optional fraction, optional exponent). -/
def parseNumber (cs : List Char) : Option (Json × List Char) := do
  let (neg, cs1) := match cs with
    | '-' :: rest => (true, rest)
    | _ => (false, cs)
  let intDigits := cs1.takeWhile Char.isDigit
  let cs2 := cs1.dropWhile Char.isDigit
  if intDigits.isEmpty then none
  else if intDigits.length > 1 ∧ intDigits.head? = some '0' then none
  else
    let (fracDigits, cs3) := match cs2 with
      | '.' :: rest =>
        (rest.takeWhile Char.isDigit, rest.dropWhile Char.isDigit)
      | _ => ([], cs2)
    if cs2.head? = some '.' ∧ fracDigits.isEmpty then none
    else
      let (expOk, expNeg, expDigits, cs4) := match cs3 with
        | 'e' :: '+' :: rest | 'E' :: '+' :: rest =>
          (!(rest.takeWhile Char.isDigit).isEmpty, false,
            rest.takeWhile Char.isDigit, rest.dropWhile Char.isDigit)
        | 'e' :: '-' :: rest | 'E' :: '-' :: rest =>
          (!(rest.takeWhile Char.isDigit).isEmpty, true,
            rest.takeWhile Char.isDigit, rest.dropWhile Char.isDigit)
        | 'e' :: rest | 'E' :: rest =>
          (!(rest.takeWhile Char.isDigit).isEmpty, false,
            rest.takeWhile Char.isDigit, rest.dropWhile Char.isDigit)
        | _ => (true, false, [], cs3)
      if expOk = false then none
      else
        let mantNat : Nat := digitsToNat (intDigits ++ fracDigits)
        let mant : Int := if neg then -(mantNat : Int) else (mantNat : Int)
        let expVal : Int :=
          (if expNeg then -(digitsToNat expDigits : Int) else (digitsToNat expDigits : Int))
            - (fracDigits.length : Int)
        some (Json.num (mkJsonNumber mant expVal), cs4)

/-- Insert or replace a field in an object field list; a later duplicate key
keeps the original position but takes the new value, as JavaScript object
construction does. -/
def setField (fields : List (String × Json)) (key : String) (v : Json) :
    List (String × Json) :=
  if fields.any (fun f => f.1 = key) then
    fields.map (fun f => if f.1 = key then (key, v) else f)
  else
    fields ++ [(key, v)]

mutual

/-- Parse one JSON value (fueled recursive descent, entry point skips
leading whitespace). -/
def parseValue : Nat → List Char → Option (Json × List Char)
  | 0, _ => none
  | fuel + 1, cs =>
    match skipWs cs with
    | 'n' :: 'u' :: 'l' :: 'l' :: rest => some (Json.null, rest)
    | 't' :: 'r' :: 'u' :: 'e' :: rest => some (Json.bool true, rest)
    | 'f' :: 'a' :: 'l' :: 's' :: 'e' :: rest => some (Json.bool false, rest)
    | '"' :: rest =>
      (parseStringChars rest).map (fun r => (Json.str (String.mk r.1), r.2))
    | '[' :: rest =>
      (match skipWs rest with
       | ']' :: rest2 => some (Json.arr [], rest2)
       | _ => parseElements fuel rest [])
    | '\x7b' :: rest =>
      (match skipWs rest with
       | '\x7d' :: rest2 => some (Json.obj [], rest2)
       | _ => parseMembers fuel rest [])
    | cs1 => parseNumber cs1

/-- Parse the remaining elements of a nonempty JSON array. -/
def parseElements : Nat → List Char → List Json → Option (Json × List Char)
  | 0, _, _ => none
  | fuel + 1, cs, acc =>
    match parseValue fuel cs with
    | none => none
    | some (v, rest) =>
      match skipWs rest with
      | ',' :: rest2 => parseElements fuel rest2 (acc ++ [v])
      | ']' :: rest2 => some (Json.arr (acc ++ [v]), rest2)
      | _ => none

/-- Parse the remaining members of a nonempty JSON object. -/
def parseMembers : Nat → List Char →
    List (String × Json) → Option (Json × List Char)
  | 0, _, _ => none
  | fuel + 1, cs, acc =>
    match skipWs cs with
    | '"' :: rest =>
      match parseStringChars rest with
      | none => none
      | some (keyChars, rest2) =>
        match skipWs rest2 with
        | ':' :: rest3 =>
          match parseValue fuel rest3 with
          | none => none
          | some (v, rest4) =>
            let acc2 := setField acc (String.mk keyChars) v
            match skipWs rest4 with
            | ',' :: rest5 => parseMembers fuel rest5 acc2
            | '\x7d' :: rest5 => some (Json.obj acc2, rest5)
            | _ => none
        | _ => none
    | _ => none

end

/-- Model of JSON.parse: parse a complete JSON document, requiring the
whole input to be consumed (up to trailing whitespace). -/
def jsonParse (s : String) : Option Json :=
  match parseValue (s.length + 1) s.data with
  | some (v, rest) => if skipWs rest = [] then some v else none
  | none => none

/-- Render a JSON number back to text: mantissa shifted by the decimal
exponent. -/
def jsonNumberToString (n : JsonNumber) : String :=
  if n.exponent ≥ 0 then
    toString n.mantissa ++ String.mk (List.replicate n.exponent.toNat '0')
  else
    let k := (-n.exponent).toNat
    let digits := toString n.mantissa.natAbs
    let sign := if n.mantissa < 0 then "-" else ""
    if digits.length ≤ k then
      sign ++ "0." ++ String.mk (List.replicate (k - digits.length) '0') ++ digits
    else
      sign ++ digits.take (digits.length - k) ++ "." ++ digits.drop (digits.length - k)

/-- One hexadecimal digit. -/
def hexDigit (n : Nat) : String :=
  String.singleton ((String.mk "0123456789abcdef".data).data.getD (n % 16) '0')

/-- Escape one character the way JSON.stringify does. -/
def escapeJsonChar (c : Char) : String :=
  if c = '"' then "\\\""
  else if c = '\\' then "\\\\"
  else if c = '\n' then "\\n"
  else if c = '\r' then "\\r"
  else if c = '\t' then "\\t"
  else if c.toNat = 8 then "\\b"
  else if c.toNat = 12 then "\\f"
  else if c.toNat < 32 then "\\u00" ++ hexDigit (c.toNat / 16) ++ hexDigit c.toNat
  else String.singleton c

/-- Serialize a string as a JSON string literal. -/
def serializeJsonString (s : String) : String :=
  "\"" ++ String.join (s.data.map escapeJsonChar) ++ "\""

mutual

/-- Model of JSON.stringify on JSON values. -/
def jsonSerialize : Json → String
  | .null => "null"
  | .bool true => "true"
  | .bool false => "false"
  | .num n => jsonNumberToString n
  | .str s => serializeJsonString s
  | .arr xs => "[" ++ serializeArrItems xs ++ "]"
  | .obj fs => "\x7b" ++ serializeObjFields fs ++ "\x7d"

/-- Comma-separated serialization of array elements. -/
def serializeArrItems : List Json → String
  | [] => ""
  | [x] => jsonSerialize x
  | x :: y :: rest => jsonSerialize x ++ "," ++ serializeArrItems (y :: rest)

/-- Comma-separated serialization of object members. -/
def serializeObjFields : List (String × Json) → String
  | [] => ""
  | [(k, v)] => serializeJsonString k ++ ":" ++ jsonSerialize v
  | (k, v) :: f :: rest =>
    serializeJsonString k ++ ":" ++ jsonSerialize v ++ "," ++
      serializeObjFields (f :: rest)

end

mutual

/-- Model of the JavaScript String() coercion on JSON values. -/
def jsStringCoerce : Json → String
  | .null => "null"
  | .bool true => "true"
  | .bool false => "false"
  | .num n => jsonNumberToString n
  | .str s => s
  | .arr xs => jsCoerceItems xs
  | .obj _ => "[object Object]"

/-- Array toString: elements coerced and joined with commas, null
rendered as the empty string. -/
def jsCoerceItems : List Json → String
  | [] => ""
  | [x] => (match x with | .null => "" | _ => jsStringCoerce x)
  | x :: y :: rest =>
    (match x with | .null => "" | _ => jsStringCoerce x) ++ "," ++
      jsCoerceItems (y :: rest)

end

/-- The base64 alphabet. -/
def base64Alphabet : List Char :=
  "ABCDEFGHIJKLMNOPQRSTUVWXYZabcdefghijklmnopqrstuvwxyz0123456789+/".data

/-- One base64 alphabet character. -/
def base64Char (n : Nat) : Char :=
  base64Alphabet.getD (n % 64) 'A'

/-- Base64 encoding of a byte sequence (bytes taken modulo 256),
modelling Buffer.toString with base64 encoding. -/
def base64Encode : List Nat → String
  | [] => ""
  | [a] =>
    let a := a % 256
    String.mk [base64Char (a / 4), base64Char ((a % 4) * 16)] ++ "=="
  | [a, b] =>
    let a := a % 256
    let b := b % 256
    String.mk [base64Char (a / 4), base64Char ((a % 4) * 16 + b / 16),
      base64Char ((b % 16) * 4)] ++ "="
  | a :: b :: c :: rest =>
    let a := a % 256
    let b := b % 256
    let c := c % 256
    String.mk [base64Char (a / 4), base64Char ((a % 4) * 16 + b / 16),
      base64Char ((b % 16) * 4 + c / 64), base64Char (c % 64)] ++
      base64Encode rest

/-- Whitespace as recognized by the JavaScript trim. -/
def isJsWhitespace (c : Char) : Bool :=
  c = ' ' ∨ c = '\t' ∨ c = '\n' ∨ c = '\r' ∨ c = '\x0b' ∨ c = '\x0c'

/-- Model of the JavaScript trim on strings: strip leading and trailing
whitespace. -/
def jsTrim (s : String) : String :=
  String.mk (((s.data.dropWhile isJsWhitespace).reverse.dropWhile isJsWhitespace).reverse)

/-- Model of the JavaScript startsWith test: the leading characters of s
of the length of p form exactly p. -/
def jsStartsWith (s p : String) : Bool :=
  s.take p.length = p

/-- TokenCounter.estimateTokens: zero for the empty string, otherwise the
character count divided by four, rounded up. -/
def estimateTokens (text : String) : Nat :=
  if text.length = 0 then 0 else (text.length + 3) / 4

/-! ### Host message parts and the message mapper -/

/-- A sub-part of a tool result: a text part, a binary data part with a
mime type, or any other runtime value (modelled as a JSON value). -/
inductive ResultPart where
  | text (value : String) : ResultPart
  | data (mimeType : String) (bytes : List Nat) : ResultPart
  | other (value : Json) : ResultPart

/-- A host message content part: text, tool call, tool result, or any
other part (data or thinking parts, modelled as a JSON value; the user
message path ignores them). -/
inductive HostPart where
  | text (value : String) : HostPart
  | toolCall (callId : String) (name : String) (input : Option Json) : HostPart
  | toolResult (callId : String) (content : List ResultPart) : HostPart
  | other (value : Json) : HostPart

/-- A tool call entry of a wire assistant message. -/
structure MiniMaxToolCallFunction where
  name : String
  arguments : String
deriving Repr, DecidableEq

/-- A serialized tool call of a wire assistant message. -/
structure MiniMaxToolCallEntry where
  id : String
  type : String
  function : MiniMaxToolCallFunction
deriving Repr, DecidableEq

/-- A wire chat message, discriminated by role. -/
inductive MiniMaxMessage where
  | system (content : String) : MiniMaxMessage
  | user (content : String) : MiniMaxMessage
  | assistant (content : String) (tool_calls : Option (List MiniMaxToolCallEntry))
      (reasoning_details : Option (List Json)) : MiniMaxMessage
  | tool (tool_call_id : String) (content : String) : MiniMaxMessage

/-- concatTextParts: concatenation of the values of all text parts, in
order, other parts ignored. -/
def concatTextParts (parts : List HostPart) : String :=
  parts.foldl
    (fun text p =>
      match p with
      | .text v => text ++ v
      | _ => text)
    ""

/-- safeJson: JSON.stringify of an arbitrary value; on the JSON value
model serialization never throws, so the String() fallback of the source
is unreachable. -/
def safeJson (value : Json) : String :=
  jsonSerialize value

/-- concatToolResultContent: best-effort text rendering of the sub-parts
of a tool result, concatenated in order with no separator, then trimmed,
with the literal text of an empty object substituted when the rendering
trims to empty. -/
def concatToolResultContent (parts : List ResultPart) : String :=
  let text := parts.foldl
    (fun t p =>
      match p with
      | .text v => t ++ v
      | .data mime bytes =>
        t ++ ("[data:" ++ mime ++ ";base64," ++ base64Encode bytes ++ "]")
      | .other v =>
        match v.getField "value" with
        | some (.str s) => t ++ s
        | _ => t ++ safeJson v)
    ""
  let normalized := jsTrim text
  if normalized.length > 0 then normalized else "\x7b\x7d"

/-- toMiniMaxUserAndToolMessages: split a user-role host message into an
optional user wire message followed by one tool wire message per tool
result part. -/
def toMiniMaxUserAndToolMessages (parts : List HostPart) : List MiniMaxMessage :=
  let textContent := concatTextParts parts
  let toolMessages : List MiniMaxMessage := parts.foldl
    (fun acc p =>
      match p with
      | .toolResult callId content =>
        acc ++ [MiniMaxMessage.tool callId (concatToolResultContent content)]
      | _ => acc)
    []
  (if (jsTrim textContent).length > 0 ∨ toolMessages.length = 0 then
    [MiniMaxMessage.user textContent]
  else
    []) ++ toolMessages

/-! ### Tool schema normalization -/

/-- The permissive fallback schema. -/
def fallbackSchema : Json :=
  Json.obj [("type", Json.str "object"), ("properties", Json.obj [])]

/-- First normalization step: inject a type of object when the type key
is missing (a new key is appended, as property assignment does). -/
def withTypeDefault (fields : List (String × Json)) : List (String × Json) :=
  if fields.any (fun f => f.1 = "type") then fields
  else fields ++ [("type", Json.str "object")]

/-- Whether the type field holds exactly the string object. -/
def typeIsObjectStr (fields : List (String × Json)) : Bool :=
  match (fields.find? (fun f => f.1 = "type")).map (·.2) with
  | some (Json.str s) => s = "object"
  | _ => false

/-- Second normalization step: inject empty properties when the type is
the string object and the properties key is missing. -/
def withPropertiesDefault (fields : List (String × Json)) : List (String × Json) :=
  if typeIsObjectStr fields && !(fields.any (fun f => f.1 = "properties")) then
    fields ++ [("properties", Json.obj [])]
  else fields

/-- normalizeToolParameters: replace anything that is not a plain object
wholesale by the fallback schema; shallow-copy a plain object, injecting a
type of object when the type key is missing and empty properties when the
type is object and the properties key is missing. The input is an
optional JSON value, with none modelling an absent schema. -/
def normalizeToolParameters (inputSchema : Option Json) : Json :=
  match inputSchema with
  | some (Json.obj fields) => Json.obj (withPropertiesDefault (withTypeDefault fields))
  | _ => fallbackSchema

/-- normalizeToolName: a trimmed non-empty name, or nothing. -/
def normalizeToolName (name : Option String) : Option String :=
  match name with
  | some s => let t := jsTrim s; if t.length > 0 then some t else none
  | none => none

/-- normalizeToolDescription: a trimmed non-empty description, or
nothing. -/
def normalizeToolDescription (description : Option String) : Option String :=
  match description with
  | some s => let t := jsTrim s; if t.length > 0 then some t else none
  | none => none

/-- A host tool declaration. -/
structure HostTool where
  name : Option String
  description : Option String
  inputSchema : Option Json

/-- The function entry of a wire tool definition. -/
structure MiniMaxFunctionDefinition where
  name : String
  description : Option String
  parameters : Json

/-- A wire tool definition. -/
structure MiniMaxToolDefinition where
  type : String
  function : MiniMaxFunctionDefinition

/-- convertTools: convert the host tools, skipping tools with a blank
name, returning nothing when the input is absent or empty or every tool
was skipped. -/
def convertTools (tools : Option (List HostTool)) : Option (List MiniMaxToolDefinition) :=
  match tools with
  | none => none
  | some ts =>
    if ts.length = 0 then none
    else
      let converted := ts.foldl
        (fun acc tool =>
          match normalizeToolName tool.name with
          | none => acc
          | some name =>
            acc ++ [{ type := "function",
                      function := { name,
                                    description := normalizeToolDescription tool.description,
                                    parameters := normalizeToolParameters tool.inputSchema } }])
        ([] : List MiniMaxToolDefinition)
      if converted.length > 0 then some converted else none

/-! ### Streaming response reconstruction -/

/-- readNonEmptyString on a possibly absent runtime value: the trimmed
text when the value is a string that trims non-empty, otherwise nothing. -/
def readNonEmptyString (value : Option Json) : Option String :=
  match value with
  | some (Json.str s) =>
    let normalized := jsTrim s
    if normalized.length > 0 then some normalized else none
  | _ => none

/-- The delta of one streamed choice: optional content text, and the
loosely typed reasoning and tool-call entry arrays (absent models both a
missing field and a non-array value, which the source treats alike). -/
structure Delta where
  content : Option String
  reasoning_details : Option (List Json)
  tool_calls : Option (List Json)

/-- One choice of a streamed chunk. -/
structure Choice where
  delta : Option Delta
  finish_reason : Option String

/-- One streamed chunk. -/
structure Chunk where
  choices : List Choice

/-- A reasoning update extracted from one reasoning-detail entry. -/
structure ReasoningUpdate where
  text : String
  id : Option String
  metadata : Option Json

/-- Extract a reasoning update from one reasoning-detail entry: requires
an entry with a string text field; the id is the first non-empty of the
id, reasoning_id and thinking_id fields; metadata is kept only when it is
a plain object. -/
def mkReasoningUpdate (entry : Json) : Option ReasoningUpdate :=
  match entry.getField "text" with
  | some (Json.str t) =>
    some { text := t
           id := readNonEmptyString (entry.getField "id") <|>
             readNonEmptyString (entry.getField "reasoning_id") <|>
             readNonEmptyString (entry.getField "thinking_id")
           metadata :=
             match entry.getField "metadata" with
             | some (Json.obj fs) => some (Json.obj fs)
             | _ => none }
  | _ => none

/-- getLatestReasoningUpdate: the last entry of the reasoning-detail
array of the choice delta that carries a string text field. -/
def getLatestReasoningUpdate (choice : Choice) : Option ReasoningUpdate :=
  match choice.delta with
  | none => none
  | some d =>
    match d.reasoning_details with
    | none => none
    | some ds =>
      ds.foldl
        (fun latest entry =>
          match mkReasoningUpdate entry with
          | some u => some u
          | none => latest)
        none

/-- A tool call being accumulated across streamed fragments. -/
structure AccumulatedToolCall where
  index : Nat
  id : Option String
  name : Option String
  arguments : String
deriving Repr, DecidableEq

/-- Lookup in the pending tool-call map (keyed by index). -/
def pendingGet (pending : List AccumulatedToolCall) (i : Nat) :
    Option AccumulatedToolCall :=
  pending.find? (fun c => c.index = i)

/-- Insertion-ordered map update: an existing key keeps its position, a
new key is appended, as a JavaScript Map does. -/
def pendingSet (pending : List AccumulatedToolCall) (i : Nat)
    (c : AccumulatedToolCall) : List AccumulatedToolCall :=
  if pending.any (fun e => e.index = i) then
    pending.map (fun e => if e.index = i then c else e)
  else
    pending ++ [c]

/-- Read a fragment index: defined only when the value is a number that
is a non-negative integer. -/
def jsonIndexNat (v : Option Json) : Option Nat :=
  match v with
  | some (Json.num n) =>
    if n.exponent ≥ 0 ∧ n.mantissa ≥ 0 then
      some (n.mantissa.toNat * 10 ^ n.exponent.toNat)
    else none
  | _ => none

/-- Whether a runtime value passes the object test of the source (null
excluded, arrays included, primitives excluded). -/
def isObjectLike (v : Json) : Bool :=
  match v with
  | .obj _ => true
  | .arr _ => true
  | _ => false

/-- Resolve the target index of a fragment: its declared index when it
is a non-negative integer, otherwise the current size of the pending
map. -/
def resolveFragmentIndex (frag : Json) (pendingSize : Nat) : Nat :=
  match jsonIndexNat (frag.getField "index") with
  | some i => i
  | none => pendingSize

/-- Ratchet step for the id field: overwrite whenever the fragment
supplies a non-empty string id. -/
def applyIdStep (current : AccumulatedToolCall) (v : Option Json) :
    AccumulatedToolCall :=
  match v with
  | some (Json.str s) => if s.length > 0 then { current with id := some s } else current
  | _ => current

/-- Ratchet step for the name field: overwrite whenever the fragment
supplies a non-empty string name. -/
def applyNameStep (current : AccumulatedToolCall) (v : Option Json) :
    AccumulatedToolCall :=
  match v with
  | some (Json.str s) => if s.length > 0 then { current with name := some s } else current
  | _ => current

/-- Append step for the argument text: append whenever the fragment
supplies non-empty argument text, never replacing. -/
def applyArgsStep (current : AccumulatedToolCall) (v : Option Json) :
    AccumulatedToolCall :=
  match v with
  | some (Json.str s) =>
    if s.length > 0 then { current with arguments := current.arguments ++ s }
    else current
  | _ => current

/-- Accumulate one tool-call fragment into the pending map: resolve the
target by the fragment index when it is a non-negative integer and by the
current map size otherwise; overwrite id and name on any non-empty value;
append non-empty argument text. -/
def accumulateFragment (pending : List AccumulatedToolCall) (rawCall : Json) :
    List AccumulatedToolCall :=
  if isObjectLike rawCall then
    let index := resolveFragmentIndex rawCall pending.length
    let current := (pendingGet pending index).getD
      { index, id := none, name := none, arguments := "" }
    let fn := rawCall.getField "function"
    pendingSet pending index
      (applyArgsStep
        (applyNameStep (applyIdStep current (rawCall.getField "id"))
          (fn.bind (fun f => f.getField "name")))
        (fn.bind (fun f => f.getField "arguments")))
  else
    pending

/-- accumulateToolCalls: fold every fragment of the tool-call array of
the choice delta into the pending map. -/
def accumulateToolCalls (choice : Choice)
    (pending : List AccumulatedToolCall) : List AccumulatedToolCall :=
  match choice.delta with
  | none => pending
  | some d =>
    match d.tool_calls with
    | none => pending
    | some calls => calls.foldl accumulateFragment pending

/-- isToolCallFinish: the finish reason signals tool calls. -/
def isToolCallFinish (choice : Choice) : Bool :=
  choice.finish_reason = some "tool_calls" ∨
    choice.finish_reason = some "function_call"

/-- parseToolArguments: trim, parse as JSON; empty text gives the empty
object, a parsed object is returned as is, parsed non-object JSON is
wrapped under a value key, unparsable text is wrapped under a
rawArguments key carrying the original untrimmed string. -/
def parseToolArguments (raw : String) : Json :=
  let text := jsTrim raw
  if text.length = 0 then Json.obj []
  else
    match jsonParse text with
    | some v =>
      match v with
      | Json.obj fields => Json.obj fields
      | _ => Json.obj [("value", v)]
    | none => Json.obj [("rawArguments", Json.str raw)]

/-- A host-facing output event emitted while reconstructing a response. -/
inductive OutEvent where
  | text (content : String) : OutEvent
  | thinking (text : String) (id : Option String) (metadata : Option Json) : OutEvent
  | toolCall (callId : String) (name : String) (input : Json) : OutEvent

/-- Stable insertion into a list sorted by ascending index. -/
def insertByIndex (c : AccumulatedToolCall) :
    List AccumulatedToolCall → List AccumulatedToolCall
  | [] => [c]
  | x :: xs => if c.index < x.index then c :: x :: xs else x :: insertByIndex c xs

/-- Stable sort by ascending index (models the array sort on the pending
map values). -/
def sortByIndex (calls : List AccumulatedToolCall) : List AccumulatedToolCall :=
  calls.foldl (fun acc c => insertByIndex c acc) []

/-- reportToolCalls: emit every accumulated call that has both a
non-empty id and a non-empty name, sorted by index ascending, with its
argument text parsed; incomplete calls are silently dropped. -/
def reportToolCalls (pending : List AccumulatedToolCall) : List OutEvent :=
  (sortByIndex pending).foldl
    (fun events call =>
      if call.id.getD "" = "" ∨ call.name.getD "" = "" then events
      else
        events ++ [OutEvent.toolCall (call.id.getD "") (call.name.getD "")
          (parseToolArguments call.arguments)])
    []

/-- The per-response stream state. -/
structure StreamState where
  reasoningBuffer : String
  pending : List AccumulatedToolCall
  toolCallsEmitted : Bool

/-- The initial stream state of a response. -/
def initialStreamState : StreamState :=
  { reasoningBuffer := "", pending := [], toolCallsEmitted := false }

/-- The delta computed by prefix-diffing: the suffix beyond the buffered
prefix when the latest text extends it, the entire latest text
otherwise. -/
def newReasoningText (buffer : String) (latest : ReasoningUpdate) : String :=
  if jsStartsWith latest.text buffer then
    latest.text.drop buffer.length
  else
    latest.text

/-- The reasoning sub-step of the streaming loop body: prefix-diff the
latest reasoning update of the choice against the buffer, returning the
new buffer and the emitted thinking events. -/
def reasoningStep (useThinking : Bool) (buffer : String) (choice : Choice) :
    String × List OutEvent :=
  if useThinking then
    match getLatestReasoningUpdate choice with
    | some latest =>
      if (newReasoningText buffer latest).length > 0 then
        (latest.text,
          [OutEvent.thinking (newReasoningText buffer latest) latest.id latest.metadata])
      else
        (buffer, [])
    | none => (buffer, [])
  else
    (buffer, [])

/-- The text sub-step of the streaming loop body: emit non-empty delta
content directly. -/
def contentEvents (choice : Choice) : List OutEvent :=
  match choice.delta.bind (·.content) with
  | some c => if c.length > 0 then [OutEvent.text c] else []
  | none => []

/-- The finish sub-step of the streaming loop body: emit the accumulated
tool calls on the first finish signal and mark them emitted. -/
def finishStep (emitted : Bool) (pending1 : List AccumulatedToolCall)
    (choice : Choice) : Bool × List OutEvent :=
  if emitted = false ∧ isToolCallFinish choice then
    (true, reportToolCalls pending1)
  else
    (emitted, [])

/-- Process one choice of a chunk, as the body of the streaming loop
does: reasoning prefix-diffing (when a thinking part constructor is
available), text delta emission, tool-call accumulation, and the
at-most-once tool-call emission on a finish signal. -/
def processChoice (useThinking : Bool) (st : StreamState) (choice : Choice) :
    StreamState × List OutEvent :=
  let step1 := reasoningStep useThinking st.reasoningBuffer choice
  let events2 := contentEvents choice
  let pending1 := accumulateToolCalls choice st.pending
  let step3 := finishStep st.toolCallsEmitted pending1 choice
  ({ reasoningBuffer := step1.1, pending := pending1, toolCallsEmitted := step3.1 },
    step1.2 ++ events2 ++ step3.2)

/-- Process the choices of one chunk in array order. -/
def processChoices (useThinking : Bool) (st : StreamState)
    (choices : List Choice) : StreamState × List OutEvent :=
  choices.foldl
    (fun acc c =>
      let r := processChoice useThinking acc.1 c
      (r.1, acc.2 ++ r.2))
    (st, [])

/-- Process a list of chunks, threading the stream state. -/
def processChunks (useThinking : Bool) (st : StreamState)
    (chunks : List Chunk) : StreamState × List OutEvent :=
  chunks.foldl
    (fun acc chunk =>
      let r := processChoices useThinking acc.1 chunk.choices
      (r.1, acc.2 ++ r.2))
    (st, [])

/-- streamResponse: the events emitted for a whole chunk stream, from a
fresh stream state. -/
def streamResponse (useThinking : Bool) (chunks : List Chunk) : List OutEvent :=
  (processChunks useThinking initialStreamState chunks).2

/-! ### Client: error classification and request setup -/

/-- The typed client error. -/
structure MiniMaxError where
  message : String
  code : String
  statusCode : Option Nat
deriving Repr, DecidableEq

/-- A caught JavaScript failure: an upstream API error carrying an
optional HTTP status, a generic error object with a name and a message,
or any non-error value. -/
inductive JsError where
  | apiError (message : String) (status : Option Nat) : JsError
  | jsError (name : String) (message : String) : JsError
  | nonError (value : Json) : JsError

/-- toMiniMaxError: classify a caught failure into the typed error set. -/
def toMiniMaxError : JsError → MiniMaxError
  | .apiError msg status =>
    let statusCode := status.getD 0
    { message := msg
      code := if statusCode = 401 then "AUTHENTICATION_ERROR" else "API_ERROR"
      statusCode := some statusCode }
  | .jsError name msg =>
    if name = "AbortError" then
      { message := "Request timeout", code := "TIMEOUT", statusCode := none }
    else
      { message := msg, code := "NETWORK_ERROR", statusCode := none }
  | .nonError v =>
    { message := jsStringCoerce v, code := "UNKNOWN_ERROR", statusCode := none }

/-- The options accepted by streamChat. -/
structure ChatOptions where
  temperature : Option JsonNumber
  maxTokens : Option Nat
  apiKey : Option String
  tools : Option (List MiniMaxToolDefinition)
  toolChoice : Option String
  reasoningSplit : Option Bool

/-- toOpenAiMessages: repackage each wire message by role, preserving all
fields. -/
def toOpenAiMessages (messages : List MiniMaxMessage) : List MiniMaxMessage :=
  messages.map
    (fun m =>
      match m with
      | .assistant content toolCalls reasoningDetails =>
        .assistant content toolCalls reasoningDetails
      | .tool id content => .tool id content
      | .system content => .system content
      | .user content => .user content)

/-- The outbound request parameters built by streamChat. -/
structure RequestParams where
  model : String
  stream : Bool
  messages : List MiniMaxMessage
  temperature : JsonNumber
  max_tokens : Nat
  tools : Option (List MiniMaxToolDefinition)
  tool_choice : Option String
  reasoning_split : Bool

/-- Yield chunks one at a time, stopping silently as soon as the
cancellation flag is observed before a chunk. -/
def yieldChunks (cancelledAt : Nat → Bool) : Nat → List Chunk → List Chunk
  | _, [] => []
  | i, c :: rest =>
    if cancelledAt i then [] else c :: yieldChunks cancelledAt (i + 1) rest

/-- streamChat: fail with a NO_API_KEY error, before invoking the
transport, when the key is absent or blank after trimming; otherwise
build the request parameters, invoke the transport once, classify any
transport failure, and yield chunks until cancellation. The second
component counts transport invocations. -/
def streamChat (modelId : String) (messages : List MiniMaxMessage)
    (options : Option ChatOptions) (cancelledAt : Nat → Bool)
    (transport : RequestParams → Except JsError (List Chunk)) :
    Except MiniMaxError (List Chunk) × Nat :=
  let apiKey := (options.bind (·.apiKey)).map jsTrim
  if (apiKey.getD "").length = 0 then
    (.error { message := "API key is required", code := "NO_API_KEY",
              statusCode := some 401 }, 0)
  else
    let params : RequestParams :=
      { model := modelId
        stream := true
        messages := toOpenAiMessages messages
        temperature := (options.bind (·.temperature)).getD ⟨1, 0⟩
        max_tokens := (options.bind (·.maxTokens)).getD 8192
        tools :=
          match options.bind (·.tools) with
          | some ts => if ts.length > 0 then some ts else none
          | none => none
        tool_choice :=
          match options.bind (·.toolChoice) with
          | some s => if s.length > 0 then some s else none
          | none => none
        reasoning_split := (options.bind (·.reasoningSplit)).getD true }
    match transport params with
    | .error e => (.error (toMiniMaxError e), 1)
    | .ok chunks => (.ok (yieldChunks cancelledAt 0 chunks), 1)

/-! ### Token counting for structured messages -/

/-- Total character count of the text parts of a structured request
message. -/
def totalTextChars (parts : List HostPart) : Nat :=
  parts.foldl
    (fun total p =>
      match p with
      | .text v => total + v.length
      | _ => total)
    0

/-- provideTokenCount on a structured (non-string) request message: sums
the character lengths of its text parts and estimates tokens on the
decimal string rendering of that total. -/
def provideTokenCountMessage (parts : List HostPart) : Nat :=
  estimateTokens (toString (totalTextChars parts))

/-! ### Observers used by the theorems -/

/-- Whether a runtime value is a plain object (not null, not an array,
not a primitive). -/
def isPlainObject (v : Json) : Bool :=
  match v with
  | .obj _ => true
  | _ => false

/-- Per-sub-part rendering of a tool result sub-part, as the theorems
state it: text verbatim, data parts as a bracketed data url, objects with
a string value field as that string, anything else serialized. -/
def renderResultPart : ResultPart → String
  | .text v => v
  | .data mime bytes => "[data:" ++ mime ++ ";base64," ++ base64Encode bytes ++ "]"
  | .other v =>
    match v.getField "value" with
    | some (.str s) => s
    | _ => safeJson v

/-- Plain concatenation of a list of strings. -/
def concatStrings : List String → String
  | [] => ""
  | s :: rest => s ++ concatStrings rest

/-- The call id and sub-parts of every tool result part, in order. -/
def toolResultsOf (parts : List HostPart) : List (String × List ResultPart) :=
  parts.filterMap
    (fun p =>
      match p with
      | .toolResult callId content => some (callId, content)
      | _ => none)

/-- Whether an output event is a tool-call invocation. -/
def isToolCallEvent : OutEvent → Bool
  | .toolCall _ _ _ => true
  | _ => false

/-- The non-empty string supplied by a fragment field, when there is
one. -/
def suppliedString (v : Option Json) : Option String :=
  match v with
  | some (Json.str s) => if s.length > 0 then some s else none
  | _ => none

/-- All choices of a chunk stream, flattened in order. -/
def flattenChoices (chunks : List Chunk) : List Choice :=
  chunks.flatMap (·.choices)

/-- Fold tool-call accumulation over a list of choices. -/
def accumChoices (choices : List Choice) (pending : List AccumulatedToolCall) :
    List AccumulatedToolCall :=
  choices.foldl (fun p c => accumulateToolCalls c p) pending

/-- The completed invocation event of an accumulated call: defined only
when both a non-empty id and a non-empty name were accumulated. -/
def completedToolCallEvent (call : AccumulatedToolCall) : Option OutEvent :=
  if call.id.getD "" = "" ∨ call.name.getD "" = "" then none
  else
    some (OutEvent.toolCall (call.id.getD "") (call.name.getD "")
      (parseToolArguments call.arguments))

/-- A single-choice chunk carrying one tool-call fragment. -/
def fragmentChunk (fields : List (String × Json)) : Chunk :=
  ⟨[⟨some ⟨none, none, some [Json.obj fields]⟩, none⟩]⟩

/-- The fragment sequence of the specification example: id, then name,
then two argument pieces, then a tool-call finish signal. -/
def c2ExampleChunks : List Chunk :=
  [fragmentChunk [("index", Json.num ⟨0, 0⟩), ("id", Json.str "c1")],
   fragmentChunk [("index", Json.num ⟨0, 0⟩),
     ("function", Json.obj [("name", Json.str "run")])],
   fragmentChunk [("index", Json.num ⟨0, 0⟩),
     ("function", Json.obj [("arguments", Json.str "\x7b\"a\":")])],
   fragmentChunk [("index", Json.num ⟨0, 0⟩),
     ("function", Json.obj [("arguments", Json.str "1\x7d")])],
   ⟨[⟨none, some "tool_calls"⟩]⟩]

/-- A single-choice chunk carrying one cumulative reasoning text. -/
def reasoningChunk (t : String) : Chunk :=
  ⟨[⟨some ⟨none, some [Json.obj [("text", Json.str t)]], none⟩, none⟩]⟩

/-- The cumulative reasoning sequence of the specification example. -/
def c1ExampleChunks : List Chunk :=
  [reasoningChunk "Let", reasoningChunk "Let me think",
   reasoningChunk "Let me think", reasoningChunk "Go"]

/-! ### Helper lemmas -/

theorem string_length_zero_iff (s : String) : s.length = 0 ↔ s = "" := by
  cases s with
  | mk data =>
    show data.length = 0 ↔ _
    constructor
    · intro h
      have : data = [] := List.length_eq_zero.mp h
      subst this
      rfl
    · intro h
      have : data = [] := congrArg String.data h
      subst this
      rfl

theorem string_append_assoc (a b c : String) : a ++ b ++ c = a ++ (b ++ c) := by
  cases a with
  | mk da =>
    cases b with
    | mk db =>
      cases c with
      | mk dc =>
        show String.mk (da ++ db ++ dc) = String.mk (da ++ (db ++ dc))
        rw [List.append_assoc]

theorem jsStartsWith_append (p rest : String) : jsStartsWith (p ++ rest) p = true := by
  have h : (p ++ rest).take p.length = p := by
    rw [String.take_eq, String.data_append]
    show String.mk ((p.data ++ rest.data).take p.data.length) = p
    rw [List.take_left]
  simp [jsStartsWith, h]

theorem string_drop_append (p rest : String) : (p ++ rest).drop p.length = rest := by
  rw [String.drop_eq, String.data_append]
  show String.mk ((p.data ++ rest.data).drop p.data.length) = rest
  rw [List.drop_left]

theorem any_false_find_none (fields : List (String × Json)) (key : String)
    (h : fields.any (fun f => f.1 = key) = false) :
    fields.find? (fun f => f.1 = key) = none := by
  rw [List.find?_eq_none]
  intro x hx
  simp only [decide_eq_true_eq]
  intro hxx
  rw [List.any_eq_false] at h
  exact h x hx (by simp [hxx])

theorem withTypeDefault_present (fields : List (String × Json))
    (ht : fields.any (fun f => f.1 = "type") = true) : withTypeDefault fields = fields := by
  unfold withTypeDefault
  rw [if_pos ht]

theorem withTypeDefault_missing (fields : List (String × Json))
    (ht : fields.any (fun f => f.1 = "type") = false) :
    withTypeDefault fields = fields ++ [("type", Json.str "object")] := by
  unfold withTypeDefault
  rw [if_neg (by simp [ht])]

theorem withPropertiesDefault_present (fields : List (String × Json))
    (hp : fields.any (fun f => f.1 = "properties") = true) :
    withPropertiesDefault fields = fields := by
  unfold withPropertiesDefault
  rw [hp]
  simp

theorem withPropertiesDefault_notObject (fields : List (String × Json))
    (hto : typeIsObjectStr fields = false) :
    withPropertiesDefault fields = fields := by
  unfold withPropertiesDefault
  rw [hto]
  simp

theorem withPropertiesDefault_missing (fields : List (String × Json))
    (hto : typeIsObjectStr fields = true)
    (hp : fields.any (fun f => f.1 = "properties") = false) :
    withPropertiesDefault fields = fields ++ [("properties", Json.obj [])] := by
  unfold withPropertiesDefault
  rw [hto, hp]
  simp

theorem typeIsObjectStr_appended (fields : List (String × Json))
    (ht : fields.any (fun f => f.1 = "type") = false) :
    typeIsObjectStr (fields ++ [("type", Json.str "object")]) = true := by
  unfold typeIsObjectStr
  rw [List.find?_append, any_false_find_none fields "type" ht]
  simp

theorem string_append_right_empty (s : String) : s ++ "" = s := by
  cases s with
  | mk d =>
    show String.mk (d ++ []) = String.mk d
    rw [List.append_nil]

theorem string_empty_append (s : String) : "" ++ s = s := by
  cases s with
  | mk d =>
    show String.mk ([] ++ d) = String.mk d
    rw [List.nil_append]

theorem concatToolResult_fold (parts : List ResultPart) (t : String) :
    parts.foldl
      (fun t p =>
        match p with
        | .text v => t ++ v
        | .data mime bytes =>
          t ++ ("[data:" ++ mime ++ ";base64," ++ base64Encode bytes ++ "]")
        | .other v =>
          match v.getField "value" with
          | some (.str s) => t ++ s
          | _ => t ++ safeJson v)
      t = t ++ concatStrings (parts.map renderResultPart) := by
  induction parts generalizing t with
  | nil => simp [concatStrings, string_append_right_empty]
  | cons p ps ih =>
    rw [List.foldl_cons, List.map_cons]
    cases p with
    | text v =>
      rw [ih]
      simp only [renderResultPart, concatStrings, string_append_assoc]
    | data mime bytes =>
      rw [ih]
      simp only [renderResultPart, concatStrings, string_append_assoc]
    | other v =>
      rw [ih]
      cases hv : v.getField "value" with
      | none => simp only [renderResultPart, hv, concatStrings, string_append_assoc]
      | some w =>
        cases w <;> simp only [renderResultPart, hv, concatStrings, string_append_assoc]

theorem concatToolResultContent_eq (parts : List ResultPart) :
    concatToolResultContent parts =
      (let rendered := jsTrim (concatStrings (parts.map renderResultPart))
       if rendered.length > 0 then rendered else "\x7b\x7d") := by
  unfold concatToolResultContent
  rw [concatToolResult_fold parts "", string_empty_append]

theorem toolMessages_fold (parts : List HostPart) (acc : List MiniMaxMessage) :
    parts.foldl
      (fun acc p =>
        match p with
        | HostPart.toolResult callId content =>
          acc ++ [MiniMaxMessage.tool callId (concatToolResultContent content)]
        | _ => acc)
      acc =
      acc ++ (toolResultsOf parts).map
        (fun r => MiniMaxMessage.tool r.1 (concatToolResultContent r.2)) := by
  induction parts generalizing acc with
  | nil => simp [toolResultsOf]
  | cons p ps ih =>
    rw [List.foldl_cons]
    cases p <;> simp only [toolResultsOf, List.filterMap_cons, ih, List.map_cons,
      List.map_nil, List.append_assoc, List.singleton_append, List.nil_append]

theorem toMiniMaxUserAndToolMessages_eq (parts : List HostPart) :
    toMiniMaxUserAndToolMessages parts =
      (if (jsTrim (concatTextParts parts)).length > 0 ∨ (toolResultsOf parts).length = 0 then
        [MiniMaxMessage.user (concatTextParts parts)]
      else []) ++
      (toolResultsOf parts).map
        (fun r => MiniMaxMessage.tool r.1 (concatToolResultContent r.2)) := by
  unfold toMiniMaxUserAndToolMessages
  rw [toolMessages_fold parts []]
  simp only [List.nil_append, List.length_map]

theorem concatTextParts_no_text (parts : List HostPart)
    (h : ∀ p ∈ parts, ∀ v, p ≠ HostPart.text v) : concatTextParts parts = "" := by
  have hgen : ∀ acc : String, parts.foldl
      (fun text p =>
        match p with
        | HostPart.text v => text ++ v
        | _ => text) acc = acc := by
    induction parts with
    | nil => intro acc; rfl
    | cons p ps ih =>
      intro acc
      rw [List.foldl_cons]
      cases p with
      | text v => exact absurd rfl (h (HostPart.text v) (List.mem_cons_self _ _) v)
      | toolCall c n i => exact ih (fun q hq v => h q (List.mem_cons_of_mem _ hq) v) acc
      | toolResult c ct => exact ih (fun q hq v => h q (List.mem_cons_of_mem _ hq) v) acc
      | other v => exact ih (fun q hq w => h q (List.mem_cons_of_mem _ hq) w) acc
  exact hgen ""

theorem toolResultsOf_no_toolResult (parts : List HostPart)
    (h : ∀ p ∈ parts, ∀ c ct, p ≠ HostPart.toolResult c ct) : toolResultsOf parts = [] := by
  induction parts with
  | nil => rfl
  | cons p ps ih =>
    have htail := ih (fun q hq c ct => h q (List.mem_cons_of_mem _ hq) c ct)
    cases p with
    | toolResult c ct =>
      exact absurd rfl (h (HostPart.toolResult c ct) (List.mem_cons_self _ _) c ct)
    | text v => simpa [toolResultsOf, List.filterMap_cons] using htail
    | toolCall c n i => simpa [toolResultsOf, List.filterMap_cons] using htail
    | other v => simpa [toolResultsOf, List.filterMap_cons] using htail

theorem applyIdStep_eq (old : AccumulatedToolCall) (v : Option Json) :
    applyIdStep old v = { old with id := (suppliedString v).or old.id } := by
  unfold applyIdStep
  rcases v with _ | w
  · rfl
  · cases w with
    | str s =>
      by_cases h : s.length > 0
      · simp [suppliedString, h]
      · simp [suppliedString, h]
    | null => rfl
    | bool b => rfl
    | num n => rfl
    | arr xs => rfl
    | obj fs => rfl

theorem applyNameStep_eq (old : AccumulatedToolCall) (v : Option Json) :
    applyNameStep old v = { old with name := (suppliedString v).or old.name } := by
  unfold applyNameStep
  rcases v with _ | w
  · rfl
  · cases w with
    | str s =>
      by_cases h : s.length > 0
      · simp [suppliedString, h]
      · simp [suppliedString, h]
    | null => rfl
    | bool b => rfl
    | num n => rfl
    | arr xs => rfl
    | obj fs => rfl

theorem applyArgsStep_eq (old : AccumulatedToolCall) (v : Option Json) :
    applyArgsStep old v =
      { old with arguments := old.arguments ++ (suppliedString v).getD "" } := by
  unfold applyArgsStep
  have hbase : old = { old with arguments := old.arguments ++ "" } := by
    cases old with
    | mk i oid onm oargs => simp [string_append_right_empty]
  rcases v with _ | w
  · exact hbase
  · cases w with
    | str s =>
      by_cases h : s.length > 0
      · simp [suppliedString, h]
      · simp only [suppliedString, h]
        simp only [if_false, Option.getD_none]
        exact hbase
    | null => exact hbase
    | bool b => exact hbase
    | num n => exact hbase
    | arr xs => exact hbase
    | obj fs => exact hbase

theorem pendingGet_index (pending : List AccumulatedToolCall) (k : Nat)
    (e : AccumulatedToolCall) (h : pendingGet pending k = some e) : e.index = k := by
  simpa using List.find?_some h

theorem resolveFragmentIndex_some (frag : Json) (n k : Nat)
    (h : jsonIndexNat (frag.getField "index") = some k) :
    resolveFragmentIndex frag n = k := by
  unfold resolveFragmentIndex
  rw [h]

theorem resolveFragmentIndex_missing (frag : Json) (n : Nat)
    (h : jsonIndexNat (frag.getField "index") = none) :
    resolveFragmentIndex frag n = n := by
  unfold resolveFragmentIndex
  rw [h]

theorem accumulateFragment_eq (pending : List AccumulatedToolCall) (frag : Json)
    (k : Nat) (hobj : isObjectLike frag = true)
    (hres : resolveFragmentIndex frag pending.length = k) :
    accumulateFragment pending frag =
      pendingSet pending k
        { index := k
          id := (suppliedString (frag.getField "id")).or
            ((pendingGet pending k).getD ⟨k, none, none, ""⟩).id
          name := (suppliedString ((frag.getField "function").bind
            (fun f => f.getField "name"))).or
            ((pendingGet pending k).getD ⟨k, none, none, ""⟩).name
          arguments := ((pendingGet pending k).getD ⟨k, none, none, ""⟩).arguments ++
            (suppliedString ((frag.getField "function").bind
              (fun f => f.getField "arguments"))).getD "" } := by
  have hold : ((pendingGet pending k).getD ⟨k, none, none, ""⟩).index = k := by
    cases hcur : pendingGet pending k with
    | none => rfl
    | some e => exact pendingGet_index pending k e hcur
  simp only [accumulateFragment, hobj, if_true, hres]
  rw [applyIdStep_eq, applyNameStep_eq, applyArgsStep_eq]
  congr 1
  simp [hold]

theorem reasoningFold_eq (ds : List Json) (init : Option ReasoningUpdate) :
    ds.foldl
      (fun latest entry =>
        match mkReasoningUpdate entry with
        | some u => some u
        | none => latest)
      init =
      ((ds.filterMap mkReasoningUpdate).getLast?).or init := by
  induction ds using List.reverseRecOn generalizing init with
  | nil => simp
  | append_singleton l a ih =>
    rw [List.foldl_append, List.filterMap_append]
    cases ha : mkReasoningUpdate a with
    | none =>
      simp only [List.foldl_cons, List.foldl_nil, ha]
      rw [ih]
      simp [List.filterMap_cons, ha]
    | some u =>
      simp only [List.foldl_cons, List.foldl_nil, ha]
      have : (l.filterMap mkReasoningUpdate ++ [a].filterMap mkReasoningUpdate).getLast? =
          some u := by
        simp [List.filterMap_cons, ha, List.getLast?_concat]
      rw [this]
      rfl

theorem getLatestReasoningUpdate_eq (content : Option String) (ds : List Json)
    (tcs : Option (List Json)) (fr : Option String) :
    getLatestReasoningUpdate ⟨some ⟨content, some ds, tcs⟩, fr⟩ =
      (ds.filterMap mkReasoningUpdate).getLast? := by
  show ds.foldl _ none = _
  rw [reasoningFold_eq]
  cases (ds.filterMap mkReasoningUpdate).getLast? <;> rfl

theorem jsStartsWith_self (s : String) : jsStartsWith s s = true := by
  have h : s.take s.length = s := by
    rw [String.take_eq]
    show String.mk (s.data.take s.data.length) = s
    rw [List.take_length]
  simp [jsStartsWith, h]

theorem string_drop_self (s : String) : s.drop s.length = "" := by
  rw [String.drop_eq]
  show String.mk (s.data.drop s.data.length) = ""
  rw [List.drop_length]

theorem processChoice_reasoning_prefix (st : StreamState) (ds : List Json)
    (u : ReasoningUpdate) (rest : String)
    (hlat : getLatestReasoningUpdate ⟨some ⟨none, some ds, none⟩, none⟩ = some u)
    (htext : u.text = st.reasoningBuffer ++ rest) :
    processChoice true st ⟨some ⟨none, some ds, none⟩, none⟩ =
      ({ st with reasoningBuffer := u.text },
        if rest = "" then [] else [OutEvent.thinking rest u.id u.metadata]) := by
  by_cases hr : rest = ""
  · subst hr
    rw [string_append_right_empty] at htext
    simp [processChoice, reasoningStep, newReasoningText, contentEvents, finishStep,
      hlat, htext, jsStartsWith_self, string_drop_self, accumulateToolCalls,
      isToolCallFinish, string_append_right_empty]
  · have hlen : rest.length > 0 := by
      rcases Nat.eq_zero_or_pos rest.length with h0 | h0
      · exact absurd ((string_length_zero_iff rest).mp h0) hr
      · exact h0
    simp [processChoice, reasoningStep, newReasoningText, contentEvents, finishStep,
      hlat, htext, jsStartsWith_append, string_drop_append, hr, accumulateToolCalls,
      isToolCallFinish, hlen]

theorem processChoice_reasoning_reset (st : StreamState) (ds : List Json)
    (u : ReasoningUpdate)
    (hlat : getLatestReasoningUpdate ⟨some ⟨none, some ds, none⟩, none⟩ = some u)
    (hsw : jsStartsWith u.text st.reasoningBuffer = false)
    (hne : u.text ≠ "") :
    processChoice true st ⟨some ⟨none, some ds, none⟩, none⟩ =
      ({ st with reasoningBuffer := u.text },
        [OutEvent.thinking u.text u.id u.metadata]) := by
  have hlen : u.text.length > 0 := by
    rcases Nat.eq_zero_or_pos u.text.length with h0 | h0
    · exact absurd ((string_length_zero_iff u.text).mp h0) hne
    · exact h0
  simp [processChoice, reasoningStep, newReasoningText, contentEvents, finishStep,
    hlat, hsw, hlen, accumulateToolCalls, isToolCallFinish]


theorem processChoices_acc (u : Bool) (cs : List Choice) :
    ∀ (st : StreamState) (acc : List OutEvent),
      cs.foldl
        (fun a c =>
          let r := processChoice u a.1 c
          (r.1, a.2 ++ r.2))
        (st, acc) =
      ((processChoices u st cs).1, acc ++ (processChoices u st cs).2) := by
  induction cs with
  | nil =>
    intro st acc
    simp [processChoices]
  | cons c cs ih =>
    intro st acc
    simp only [processChoices, List.foldl_cons]
    rw [ih, ih]
    simp [List.append_assoc]

theorem processChoices_cons (u : Bool) (st : StreamState) (c : Choice) (cs : List Choice) :
    processChoices u st (c :: cs) =
      ((processChoices u (processChoice u st c).1 cs).1,
        (processChoice u st c).2 ++ (processChoices u (processChoice u st c).1 cs).2) := by
  show (c :: cs).foldl _ (st, ([] : List OutEvent)) = _
  rw [List.foldl_cons]
  rw [processChoices_acc]
  simp

theorem processChunks_acc (u : Bool) (chunks : List Chunk) :
    ∀ (st : StreamState) (acc : List OutEvent),
      chunks.foldl
        (fun a chunk =>
          let r := processChoices u a.1 chunk.choices
          (r.1, a.2 ++ r.2))
        (st, acc) =
      ((processChunks u st chunks).1, acc ++ (processChunks u st chunks).2) := by
  induction chunks with
  | nil =>
    intro st acc
    simp [processChunks]
  | cons ch chunks ih =>
    intro st acc
    simp only [processChunks, List.foldl_cons]
    rw [ih, ih]
    simp [List.append_assoc]

theorem processChunks_cons (u : Bool) (st : StreamState) (ch : Chunk) (chunks : List Chunk) :
    processChunks u st (ch :: chunks) =
      ((processChunks u (processChoices u st ch.choices).1 chunks).1,
        (processChoices u st ch.choices).2 ++
          (processChunks u (processChoices u st ch.choices).1 chunks).2) := by
  show (ch :: chunks).foldl _ (st, ([] : List OutEvent)) = _
  rw [List.foldl_cons]
  rw [processChunks_acc]
  simp

theorem processChoices_append (u : Bool) (l1 l2 : List Choice) :
    ∀ st : StreamState,
      processChoices u st (l1 ++ l2) =
        ((processChoices u (processChoices u st l1).1 l2).1,
          (processChoices u st l1).2 ++ (processChoices u (processChoices u st l1).1 l2).2) := by
  induction l1 with
  | nil =>
    intro st
    simp [processChoices]
  | cons c l1 ih =>
    intro st
    rw [List.cons_append, processChoices_cons, ih, processChoices_cons]
    simp [List.append_assoc]

theorem processChunks_eq_choices (u : Bool) (chunks : List Chunk) :
    ∀ st : StreamState,
      processChunks u st chunks = processChoices u st (flattenChoices chunks) := by
  induction chunks with
  | nil =>
    intro st
    rfl
  | cons ch chunks ih =>
    intro st
    rw [processChunks_cons, ih]
    have hflat : flattenChoices (ch :: chunks) = ch.choices ++ flattenChoices chunks := by
      simp [flattenChoices]
    rw [hflat, processChoices_append]

theorem reportToolCalls_fold (calls : List AccumulatedToolCall) :
    ∀ acc : List OutEvent,
      calls.foldl
        (fun events call =>
          if call.id.getD "" = "" ∨ call.name.getD "" = "" then events
          else
            events ++ [OutEvent.toolCall (call.id.getD "") (call.name.getD "")
              (parseToolArguments call.arguments)])
        acc = acc ++ calls.filterMap completedToolCallEvent := by
  induction calls with
  | nil => intro acc; simp
  | cons call calls ih =>
    intro acc
    rw [List.foldl_cons, List.filterMap_cons]
    by_cases h : call.id.getD "" = "" ∨ call.name.getD "" = ""
    · rw [if_pos h, ih]
      simp [completedToolCallEvent, h]
    · rw [if_neg h, ih]
      simp [completedToolCallEvent, h]

theorem reportToolCalls_eq (pending : List AccumulatedToolCall) :
    reportToolCalls pending = (sortByIndex pending).filterMap completedToolCallEvent := by
  unfold reportToolCalls
  rw [reportToolCalls_fold]
  simp

theorem reportToolCalls_filter (pending : List AccumulatedToolCall) :
    (reportToolCalls pending).filter isToolCallEvent = reportToolCalls pending := by
  rw [reportToolCalls_eq, List.filter_eq_self]
  intro ev hev
  obtain ⟨call, hcall, hsome⟩ := List.mem_filterMap.mp hev
  unfold completedToolCallEvent at hsome
  by_cases h : call.id.getD "" = "" ∨ call.name.getD "" = ""
  · rw [if_pos h] at hsome
    exact Option.noConfusion hsome
  · rw [if_neg h] at hsome
    cases hsome
    rfl

theorem reasoningStep_filter (u : Bool) (b : String) (c : Choice) :
    (reasoningStep u b c).2.filter isToolCallEvent = [] := by
  unfold reasoningStep
  repeat' split
  all_goals rfl

theorem contentEvents_filter (c : Choice) :
    (contentEvents c).filter isToolCallEvent = [] := by
  unfold contentEvents
  repeat' split
  all_goals rfl

theorem processChoice_state_pending (u : Bool) (st : StreamState) (c : Choice) :
    (processChoice u st c).1.pending = accumulateToolCalls c st.pending := rfl

theorem processChoice_state_emitted (u : Bool) (st : StreamState) (c : Choice) :
    (processChoice u st c).1.toolCallsEmitted =
      (if st.toolCallsEmitted = false ∧ isToolCallFinish c = true then true
       else st.toolCallsEmitted) := by
  by_cases h : st.toolCallsEmitted = false ∧ isToolCallFinish c = true
  · simp [processChoice, finishStep, h]
  · simp [processChoice, finishStep, h]

theorem processChoice_events_filter (u : Bool) (st : StreamState) (c : Choice) :
    ((processChoice u st c).2).filter isToolCallEvent =
      (if st.toolCallsEmitted = false ∧ isToolCallFinish c = true then
        reportToolCalls (accumulateToolCalls c st.pending)
      else []) := by
  simp only [processChoice]
  rw [List.filter_append, List.filter_append, reasoningStep_filter, contentEvents_filter]
  simp only [List.nil_append]
  unfold finishStep
  by_cases h : st.toolCallsEmitted = false ∧ isToolCallFinish c = true
  · rw [if_pos h, if_pos h]
    exact reportToolCalls_filter _
  · rw [if_neg h, if_neg h]
    rfl

theorem processChoices_emitted (u : Bool) (cs : List Choice) :
    ∀ st : StreamState, st.toolCallsEmitted = true →
      (processChoices u st cs).2.filter isToolCallEvent = [] ∧
      (processChoices u st cs).1.toolCallsEmitted = true := by
  induction cs with
  | nil => exact fun st h => ⟨rfl, h⟩
  | cons c cs ih =>
    intro st h
    rw [processChoices_cons]
    have hcond : ¬ (st.toolCallsEmitted = false ∧ isToolCallFinish c = true) := by
      simp [h]
    have hemit : (processChoice u st c).1.toolCallsEmitted = true := by
      rw [processChoice_state_emitted, if_neg hcond]
      exact h
    refine ⟨?_, (ih _ hemit).2⟩
    rw [List.filter_append, processChoice_events_filter, if_neg hcond,
      List.nil_append]
    exact (ih _ hemit).1

theorem processChoices_toolcalls (u : Bool) (cs : List Choice) :
    ∀ st : StreamState, st.toolCallsEmitted = false →
      (processChoices u st cs).2.filter isToolCallEvent =
        (match cs.dropWhile (fun c => !isToolCallFinish c) with
         | [] => []
         | fin :: _ =>
           reportToolCalls
             (accumChoices (cs.takeWhile (fun c => !isToolCallFinish c) ++ [fin])
               st.pending)) := by
  induction cs with
  | nil => intro st h; rfl
  | cons c cs ih =>
    intro st h
    rw [processChoices_cons, List.filter_append, processChoice_events_filter]
    by_cases hf : isToolCallFinish c = true
    · rw [if_pos ⟨h, hf⟩]
      have hemit : (processChoice u st c).1.toolCallsEmitted = true := by
        rw [processChoice_state_emitted, if_pos ⟨h, hf⟩]
      rw [(processChoices_emitted u cs _ hemit).1, List.append_nil]
      have hdrop : (c :: cs).dropWhile (fun c => !isToolCallFinish c) = c :: cs := by
        rw [List.dropWhile_cons]
        simp [hf]
      have htake : (c :: cs).takeWhile (fun c => !isToolCallFinish c) = [] := by
        rw [List.takeWhile_cons]
        simp [hf]
      rw [hdrop, htake]
      rfl
    · have hf2 : isToolCallFinish c = false := by
        simpa using hf
      rw [if_neg (by simp [hf2])]
      have hemit : (processChoice u st c).1.toolCallsEmitted = false := by
        rw [processChoice_state_emitted, if_neg (by simp [hf2])]
        exact h
      rw [List.nil_append, ih _ hemit, processChoice_state_pending]
      have hdrop : (c :: cs).dropWhile (fun c => !isToolCallFinish c) =
          cs.dropWhile (fun c => !isToolCallFinish c) := by
        rw [List.dropWhile_cons]
        simp [hf2]
      have htake : (c :: cs).takeWhile (fun c => !isToolCallFinish c) =
          c :: cs.takeWhile (fun c => !isToolCallFinish c) := by
        rw [List.takeWhile_cons]
        simp [hf2]
      rw [hdrop, htake]
      cases hd : cs.dropWhile (fun c => !isToolCallFinish c) with
      | nil => rfl
      | cons fin rest =>
        show reportToolCalls _ = reportToolCalls _
        rw [List.cons_append]
        rfl

theorem insertByIndex_perm (c : AccumulatedToolCall) (l : List AccumulatedToolCall) :
    (insertByIndex c l).Perm (c :: l) := by
  induction l with
  | nil => exact List.Perm.refl _
  | cons x xs ih =>
    unfold insertByIndex
    by_cases h : c.index < x.index
    · rw [if_pos h]
    · rw [if_neg h]
      exact (List.Perm.cons x ih).trans (List.Perm.swap c x xs)

theorem insertByIndex_sorted (c : AccumulatedToolCall) (l : List AccumulatedToolCall)
    (hs : List.Sorted (fun a b => a.index ≤ b.index) l) :
    List.Sorted (fun a b => a.index ≤ b.index) (insertByIndex c l) := by
  induction l with
  | nil => simp [insertByIndex]
  | cons x xs ih =>
    rw [List.sorted_cons] at hs
    unfold insertByIndex
    by_cases h : c.index < x.index
    · rw [if_pos h]
      rw [List.sorted_cons]
      refine ⟨?_, (List.sorted_cons).mpr hs⟩
      intro b hb
      rcases List.mem_cons.mp hb with hb | hb
      · rw [hb]
        exact Nat.le_of_lt h
      · exact Nat.le_trans (Nat.le_of_lt h) (hs.1 b hb)
    · rw [if_neg h]
      rw [List.sorted_cons]
      refine ⟨?_, ih hs.2⟩
      intro b hb
      have hb2 := (insertByIndex_perm c xs).mem_iff.mp hb
      rcases List.mem_cons.mp hb2 with hb2 | hb2
      · rw [hb2]
        exact Nat.le_of_not_lt h
      · exact hs.1 b hb2

theorem sortByIndex_fold_perm (l : List AccumulatedToolCall) :
    ∀ acc : List AccumulatedToolCall,
      (l.foldl (fun acc c => insertByIndex c acc) acc).Perm (l ++ acc) := by
  induction l with
  | nil => intro acc; simp
  | cons c cs ih =>
    intro acc
    rw [List.foldl_cons]
    refine (ih _).trans ?_
    have h1 : (cs ++ insertByIndex c acc).Perm (cs ++ (c :: acc)) :=
      List.Perm.append_left cs (insertByIndex_perm c acc)
    exact h1.trans List.perm_middle

theorem sortByIndex_perm (pending : List AccumulatedToolCall) :
    (sortByIndex pending).Perm pending := by
  unfold sortByIndex
  have := sortByIndex_fold_perm pending []
  simpa using this

theorem sortByIndex_fold_sorted (l : List AccumulatedToolCall) :
    ∀ acc : List AccumulatedToolCall,
      List.Sorted (fun a b => a.index ≤ b.index) acc →
      List.Sorted (fun a b => a.index ≤ b.index)
        (l.foldl (fun acc c => insertByIndex c acc) acc) := by
  induction l with
  | nil => intro acc h; exact h
  | cons c cs ih =>
    intro acc h
    rw [List.foldl_cons]
    exact ih _ (insertByIndex_sorted c acc h)

theorem sortByIndex_sorted (pending : List AccumulatedToolCall) :
    List.Sorted (fun a b => a.index ≤ b.index) (sortByIndex pending) := by
  unfold sortByIndex
  exact sortByIndex_fold_sorted pending [] (by simp)


/-! ### Claim theorems -/

/-- C10: for every structured request message, provideTokenCount sums the
character lengths of the text parts into a total N and returns the token
estimate of the decimal string rendering of N, that is the digit count of
N divided by four rounded up, not N divided by four; a message totalling
10000 characters yields 2 and one totalling 0 characters yields 1. -/
theorem C10_provideTokenCount_counts_digits :
    (∀ parts : List HostPart,
      provideTokenCountMessage parts =
        ((toString (totalTextChars parts)).length + 3) / 4) ∧
    provideTokenCountMessage [HostPart.text (String.mk (List.replicate 10000 'x'))] = 2 ∧
    provideTokenCountMessage [] = 1 := by
  have hgen : ∀ parts : List HostPart,
      provideTokenCountMessage parts = ((toString (totalTextChars parts)).length + 3) / 4 := by
    intro parts
    show estimateTokens _ = _
    unfold estimateTokens
    by_cases h : (toString (totalTextChars parts)).length = 0
    · rw [if_pos h, h]
    · rw [if_neg h]
  refine ⟨hgen, ?_, rfl⟩
  have h1 : totalTextChars [HostPart.text (String.mk (List.replicate 10000 'x'))] =
      0 + (String.mk (List.replicate 10000 'x')).length := rfl
  have hlen : (String.mk (List.replicate 10000 'x')).length = 10000 := by
    rw [show (String.mk (List.replicate 10000 'x')).length =
      (List.replicate 10000 'x').length from rfl]
    exact List.length_replicate 10000 'x'
  have hchars : totalTextChars [HostPart.text (String.mk (List.replicate 10000 'x'))] = 10000 := by
    rw [h1, hlen]
  rw [hgen, hchars]
  rfl

/-- C9: error classification is total and exhaustive: an upstream API
error with status 401 maps to AUTHENTICATION_ERROR, any other upstream
API error maps to API_ERROR carrying its status code (zero when absent),
an abort-flavored failure maps to TIMEOUT with no status code, any other
error-shaped failure maps to NETWORK_ERROR with its message, and any
non-error value maps to UNKNOWN_ERROR with its string coercion. -/
theorem C9_error_classification :
    (∀ msg : String, toMiniMaxError (JsError.apiError msg (some 401)) =
      { message := msg, code := "AUTHENTICATION_ERROR", statusCode := some 401 }) ∧
    (∀ (msg : String) (s : Nat), s ≠ 401 → toMiniMaxError (JsError.apiError msg (some s)) =
      { message := msg, code := "API_ERROR", statusCode := some s }) ∧
    (∀ msg : String, toMiniMaxError (JsError.apiError msg none) =
      { message := msg, code := "API_ERROR", statusCode := some 0 }) ∧
    (∀ msg : String, toMiniMaxError (JsError.jsError "AbortError" msg) =
      { message := "Request timeout", code := "TIMEOUT", statusCode := none }) ∧
    (∀ (n msg : String), n ≠ "AbortError" → toMiniMaxError (JsError.jsError n msg) =
      { message := msg, code := "NETWORK_ERROR", statusCode := none }) ∧
    (∀ v : Json, toMiniMaxError (JsError.nonError v) =
      { message := jsStringCoerce v, code := "UNKNOWN_ERROR", statusCode := none }) ∧
    (∀ e : JsError, (toMiniMaxError e).code = "AUTHENTICATION_ERROR" ∨
      (toMiniMaxError e).code = "API_ERROR" ∨ (toMiniMaxError e).code = "TIMEOUT" ∨
      (toMiniMaxError e).code = "NETWORK_ERROR" ∨ (toMiniMaxError e).code = "UNKNOWN_ERROR") := by
  refine ⟨fun msg => rfl, fun msg s hs => ?_, fun msg => rfl, fun msg => rfl,
    fun n msg hn => ?_, fun v => rfl, fun e => ?_⟩
  · simp [toMiniMaxError, hs]
  · simp [toMiniMaxError, hn]
  · cases e with
    | apiError msg status =>
      by_cases h : status.getD 0 = 401 <;> simp [toMiniMaxError, h]
    | jsError n msg =>
      by_cases h : n = "AbortError" <;> simp [toMiniMaxError, h]
    | nonError v => simp [toMiniMaxError]

/-- C9 witness: concrete classifications through the theorem. -/
theorem C9_witness :
    toMiniMaxError (JsError.apiError "boom" (some 500)) =
      { message := "boom", code := "API_ERROR", statusCode := some 500 } ∧
    toMiniMaxError (JsError.jsError "TypeError" "bad fetch") =
      { message := "bad fetch", code := "NETWORK_ERROR", statusCode := none } :=
  ⟨C9_error_classification.2.1 "boom" 500 (by decide),
    C9_error_classification.2.2.2.2.1 "TypeError" "bad fetch" (by decide)⟩

/-- C8: when the apiKey option is absent or blank after trimming,
streamChat fails with a NO_API_KEY error and the transport records zero
invocations, so no chunk is yielded. -/
theorem C8_no_api_key_fails_without_transport :
    ∀ (modelId : String) (messages : List MiniMaxMessage) (options : Option ChatOptions)
      (cancelledAt : Nat → Bool) (transport : RequestParams → Except JsError (List Chunk)),
      jsTrim ((options.bind (·.apiKey)).getD "") = "" →
      streamChat modelId messages options cancelledAt transport =
        (Except.error ⟨"API key is required", "NO_API_KEY", some 401⟩, 0) := by
  intro modelId messages options cancelledAt transport h
  have hval : ((options.bind (·.apiKey)).map jsTrim).getD "" = "" := by
    cases hk : options.bind (·.apiKey) with
    | none => rfl
    | some s =>
      rw [hk] at h
      simp only [Option.getD_some] at h
      simpa using h
  simp only [streamChat, hval]
  rfl

/-- C8 witness: a blank key fails with NO_API_KEY and zero transport
calls, through the theorem. -/
theorem C8_witness :
    streamChat "MiniMax-M2" []
      (some { temperature := none, maxTokens := none, apiKey := some "   ",
              tools := none, toolChoice := none, reasoningSplit := none })
      (fun _ => false) (fun _ => Except.ok []) =
      (Except.error ⟨"API key is required", "NO_API_KEY", some 401⟩, 0) :=
  C8_no_api_key_fails_without_transport "MiniMax-M2" [] _ _ _ rfl

/-- C7: tool schema normalization replaces anything that is not a plain
object wholesale by the permissive fallback; a plain object is kept with
a type of object injected only when the type key is missing and empty
properties injected only when the type is the string object and the
properties key is missing; a schema with a string type passes through
unchanged, a list and an empty object become the fallback shape. -/
theorem C7_schema_normalization :
    (normalizeToolParameters none = fallbackSchema) ∧
    (∀ j : Json, isPlainObject j = false →
      normalizeToolParameters (some j) = fallbackSchema) ∧
    (∀ fields : List (String × Json),
      fields.any (fun f => f.1 = "type") = true →
      fields.any (fun f => f.1 = "properties") = true →
      normalizeToolParameters (some (Json.obj fields)) = Json.obj fields) ∧
    (∀ (fields : List (String × Json)) (s : String),
      fields.any (fun f => f.1 = "type") = true →
      (fields.find? (fun f => f.1 = "type")).map (·.2) = some (Json.str s) →
      s ≠ "object" →
      normalizeToolParameters (some (Json.obj fields)) = Json.obj fields) ∧
    (∀ fields : List (String × Json),
      fields.any (fun f => f.1 = "type") = true →
      (fields.find? (fun f => f.1 = "type")).map (·.2) = some (Json.str "object") →
      fields.any (fun f => f.1 = "properties") = false →
      normalizeToolParameters (some (Json.obj fields)) =
        Json.obj (fields ++ [("properties", Json.obj [])])) ∧
    (∀ fields : List (String × Json),
      fields.any (fun f => f.1 = "type") = false →
      fields.any (fun f => f.1 = "properties") = true →
      normalizeToolParameters (some (Json.obj fields)) =
        Json.obj (fields ++ [("type", Json.str "object")])) ∧
    (∀ fields : List (String × Json),
      fields.any (fun f => f.1 = "type") = false →
      fields.any (fun f => f.1 = "properties") = false →
      normalizeToolParameters (some (Json.obj fields)) =
        Json.obj (fields ++ [("type", Json.str "object"), ("properties", Json.obj [])])) ∧
    (normalizeToolParameters (some (Json.obj [("type", Json.str "string")])) =
      Json.obj [("type", Json.str "string")]) ∧
    (normalizeToolParameters (some (Json.arr [])) = fallbackSchema) ∧
    (normalizeToolParameters (some (Json.obj [])) =
      Json.obj [("type", Json.str "object"), ("properties", Json.obj [])]) := by
  refine ⟨rfl, fun j hj => ?_, fun fields ht hp => ?_, fun fields s ht hf hs => ?_,
    fun fields ht hf hp => ?_, fun fields ht hp => ?_, fun fields ht hp => ?_,
    rfl, rfl, rfl⟩
  · cases j <;> simp_all [isPlainObject, normalizeToolParameters]
  · show Json.obj (withPropertiesDefault (withTypeDefault fields)) = Json.obj fields
    rw [withTypeDefault_present fields ht, withPropertiesDefault_present fields hp]
  · show Json.obj (withPropertiesDefault (withTypeDefault fields)) = Json.obj fields
    rw [withTypeDefault_present fields ht,
      withPropertiesDefault_notObject fields (by unfold typeIsObjectStr; rw [hf]; simp [hs])]
  · show Json.obj (withPropertiesDefault (withTypeDefault fields)) =
      Json.obj (fields ++ [("properties", Json.obj [])])
    rw [withTypeDefault_present fields ht,
      withPropertiesDefault_missing fields (by unfold typeIsObjectStr; rw [hf]; simp) hp]
  · show Json.obj (withPropertiesDefault (withTypeDefault fields)) =
      Json.obj (fields ++ [("type", Json.str "object")])
    rw [withTypeDefault_missing fields ht,
      withPropertiesDefault_present _ (by simp [List.any_append, hp])]
  · show Json.obj (withPropertiesDefault (withTypeDefault fields)) =
      Json.obj (fields ++ [("type", Json.str "object"), ("properties", Json.obj [])])
    rw [withTypeDefault_missing fields ht,
      withPropertiesDefault_missing _ (typeIsObjectStr_appended fields ht)
        (by simp [List.any_append, hp]),
      List.append_assoc]
    rfl

/-- C7 witness: concrete schemas through the theorem. -/
theorem C7_witness :
    normalizeToolParameters (some (Json.bool true)) = fallbackSchema ∧
    normalizeToolParameters
        (some (Json.obj [("type", Json.str "object"), ("properties", Json.obj [])])) =
      Json.obj [("type", Json.str "object"), ("properties", Json.obj [])] ∧
    normalizeToolParameters (some (Json.obj [("type", Json.str "object")])) =
      Json.obj [("type", Json.str "object"), ("properties", Json.obj [])] :=
  ⟨C7_schema_normalization.2.1 (Json.bool true) rfl,
    C7_schema_normalization.2.2.1 _ rfl rfl,
    C7_schema_normalization.2.2.2.2.1 _ rfl rfl rfl⟩

/-- C4: tool-call argument finalization is total: a string that trims to
empty yields the empty object, text parsing as a JSON object yields that
object, text parsing as valid non-object JSON is wrapped under a value
key, unparsable text is wrapped under a rawArguments key carrying the
original untrimmed text, and the two concrete examples of the
specification hold. -/
theorem C4_parse_tool_arguments_total :
    (∀ raw : String, jsTrim raw = "" → parseToolArguments raw = Json.obj []) ∧
    (∀ (raw : String) (fields : List (String × Json)),
      jsonParse (jsTrim raw) = some (Json.obj fields) →
      parseToolArguments raw = Json.obj fields) ∧
    (∀ (raw : String) (v : Json), jsonParse (jsTrim raw) = some v →
      isPlainObject v = false → parseToolArguments raw = Json.obj [("value", v)]) ∧
    (∀ raw : String, jsonParse (jsTrim raw) = none → jsTrim raw ≠ "" →
      parseToolArguments raw = Json.obj [("rawArguments", Json.str raw)]) ∧
    parseToolArguments "not json" = Json.obj [("rawArguments", Json.str "not json")] ∧
    parseToolArguments "" = Json.obj [] := by
  refine ⟨fun raw h => ?_, fun raw fields h => ?_, fun raw v h hv => ?_,
    fun raw h hne => ?_, rfl, rfl⟩
  · unfold parseToolArguments
    rw [if_pos ((string_length_zero_iff _).mpr h)]
  · have hne : (jsTrim raw).length ≠ 0 := by
      intro h0
      rw [(string_length_zero_iff _).mp h0] at h
      rw [show jsonParse "" = none from rfl] at h
      exact Option.noConfusion h
    unfold parseToolArguments
    rw [if_neg hne, h]
  · have hne : (jsTrim raw).length ≠ 0 := by
      intro h0
      rw [(string_length_zero_iff _).mp h0] at h
      rw [show jsonParse "" = none from rfl] at h
      exact Option.noConfusion h
    unfold parseToolArguments
    rw [if_neg hne, h]
    cases v <;> simp_all [isPlainObject]
  · unfold parseToolArguments
    rw [if_neg (fun h0 => hne ((string_length_zero_iff _).mp h0)), h]

/-- C4 witness: concrete finalizations through the theorem. -/
theorem C4_witness :
    parseToolArguments "  " = Json.obj [] ∧
    parseToolArguments " 7 " = Json.obj [("value", Json.num ⟨7, 0⟩)] :=
  ⟨C4_parse_tool_arguments_total.1 "  " rfl,
    C4_parse_tool_arguments_total.2.2.1 " 7 " (Json.num ⟨7, 0⟩) rfl rfl⟩

/-- C5: splitting a user-role host message produces exactly one tool wire
message per tool result part, in original order, carrying that part call
id, with content the concatenated per-sub-part rendering trimmed and
replaced by the literal empty-object text when it trims to empty; a user
wire message is emitted, first, exactly when the concatenated text is
non-empty after trimming or no tool message was produced. -/
theorem C5_user_turn_splitting :
    (∀ parts : List HostPart,
      toMiniMaxUserAndToolMessages parts =
        (if (jsTrim (concatTextParts parts)).length > 0 ∨ (toolResultsOf parts).length = 0 then
          [MiniMaxMessage.user (concatTextParts parts)]
        else []) ++
        (toolResultsOf parts).map
          (fun r => MiniMaxMessage.tool r.1 (concatToolResultContent r.2))) ∧
    (∀ subparts : List ResultPart,
      concatToolResultContent subparts =
        (let rendered := jsTrim (concatStrings (subparts.map renderResultPart))
         if rendered.length > 0 then rendered else "\x7b\x7d")) :=
  ⟨toMiniMaxUserAndToolMessages_eq, concatToolResultContent_eq⟩

/-- C6 counterexample: a user turn whose only text part is a single space
has zero tool results, so one user wire message is emitted, but its
content is the one-space string, not the empty string as the claim
states. -/
theorem C6_counterexample :
    toMiniMaxUserAndToolMessages [HostPart.text " "] = [MiniMaxMessage.user " "] ∧
    (" " : String) ≠ "" :=
  ⟨rfl, by decide⟩

/-- C6 (amended): a non-empty user turn consisting only of tool results
emits no user wire message at all; a user turn with zero tool results
whose text trims to empty emits exactly one wire message, a user message
whose content is the concatenated (whitespace-only) text, which trims to
the empty string. -/
theorem C6_amended_user_turns :
    (∀ parts : List HostPart, parts ≠ [] →
      (∀ p ∈ parts, ∃ c ct, p = HostPart.toolResult c ct) →
      ∀ content : String, MiniMaxMessage.user content ∉ toMiniMaxUserAndToolMessages parts) ∧
    (∀ parts : List HostPart,
      (∀ p ∈ parts, ∀ c ct, p ≠ HostPart.toolResult c ct) →
      jsTrim (concatTextParts parts) = "" →
      toMiniMaxUserAndToolMessages parts = [MiniMaxMessage.user (concatTextParts parts)]) := by
  constructor
  · intro parts hne hall content hmem
    have htext : concatTextParts parts = "" := by
      apply concatTextParts_no_text
      intro p hp v hpv
      obtain ⟨c, ct, hct⟩ := hall p hp
      rw [hct] at hpv
      exact HostPart.noConfusion hpv
    rw [toMiniMaxUserAndToolMessages_eq] at hmem
    have hcond :
        ¬ ((jsTrim (concatTextParts parts)).length > 0 ∨ (toolResultsOf parts).length = 0) := by
      rw [htext]
      intro hor
      cases hor with
      | inl hgt =>
        rw [show jsTrim "" = "" from rfl] at hgt
        exact absurd hgt (by decide)
      | inr hzero =>
        cases parts with
        | nil => exact hne rfl
        | cons p ps =>
          obtain ⟨c, ct, hct⟩ := hall p (List.mem_cons_self _ _)
          subst hct
          simp [toolResultsOf, List.filterMap_cons] at hzero
    rw [if_neg hcond, List.nil_append] at hmem
    obtain ⟨r, hr, heq⟩ := List.mem_map.mp hmem
    exact MiniMaxMessage.noConfusion heq
  · intro parts hnores htrim
    rw [toMiniMaxUserAndToolMessages_eq, toolResultsOf_no_toolResult parts hnores]
    simp

/-- C6 witness: a purely tool-result turn emits no user message, and an
all-whitespace text turn emits exactly the one whitespace user message,
through the amended theorem. -/
theorem C6_witness :
    MiniMaxMessage.user "" ∉ toMiniMaxUserAndToolMessages [HostPart.toolResult "call1" []] ∧
    toMiniMaxUserAndToolMessages [HostPart.text " "] =
      [MiniMaxMessage.user (concatTextParts [HostPart.text " "])] :=
  ⟨C6_amended_user_turns.1 [HostPart.toolResult "call1" []] (by simp)
      (by
        intro p hp
        rw [List.mem_singleton] at hp
        exact ⟨"call1", [], hp⟩) "",
    C6_amended_user_turns.2 [HostPart.text " "]
      (by
        intro p hp c ct hne
        rw [List.mem_singleton] at hp
        rw [hp] at hne
        exact HostPart.noConfusion hne) rfl⟩

/-- C2: for every tool-call fragment, a non-object fragment is skipped;
the target accumulator is resolved by the fragment index when it is a
non-negative integer and by the current size of the pending map
otherwise; id and name are overwritten whenever the fragment supplies a
non-empty value, and argument text is appended to the accumulated text,
never replaced; the fragment sequence of the specification followed by a
tool-call finish yields exactly one invocation with id c1, name run and
the parsed argument object. -/
theorem C2_tool_call_accumulation :
    (∀ (pending : List AccumulatedToolCall) (frag : Json),
      isObjectLike frag = false → accumulateFragment pending frag = pending) ∧
    (∀ (pending : List AccumulatedToolCall) (frag : Json) (k : Nat),
      isObjectLike frag = true →
      jsonIndexNat (frag.getField "index") = some k →
      accumulateFragment pending frag =
        pendingSet pending k
          { index := k
            id := (suppliedString (frag.getField "id")).or
              ((pendingGet pending k).getD ⟨k, none, none, ""⟩).id
            name := (suppliedString ((frag.getField "function").bind
              (fun f => f.getField "name"))).or
              ((pendingGet pending k).getD ⟨k, none, none, ""⟩).name
            arguments := ((pendingGet pending k).getD ⟨k, none, none, ""⟩).arguments ++
              (suppliedString ((frag.getField "function").bind
                (fun f => f.getField "arguments"))).getD "" }) ∧
    (∀ (pending : List AccumulatedToolCall) (frag : Json),
      isObjectLike frag = true →
      jsonIndexNat (frag.getField "index") = none →
      accumulateFragment pending frag =
        pendingSet pending pending.length
          { index := pending.length
            id := (suppliedString (frag.getField "id")).or
              ((pendingGet pending pending.length).getD
                ⟨pending.length, none, none, ""⟩).id
            name := (suppliedString ((frag.getField "function").bind
              (fun f => f.getField "name"))).or
              ((pendingGet pending pending.length).getD
                ⟨pending.length, none, none, ""⟩).name
            arguments := ((pendingGet pending pending.length).getD
                ⟨pending.length, none, none, ""⟩).arguments ++
              (suppliedString ((frag.getField "function").bind
                (fun f => f.getField "arguments"))).getD "" }) ∧
    streamResponse true c2ExampleChunks =
      [OutEvent.toolCall "c1" "run" (Json.obj [("a", Json.num ⟨1, 0⟩)])] := by
  refine ⟨fun pending frag hobj => ?_,
    fun pending frag k hobj hidx =>
      accumulateFragment_eq pending frag k hobj (resolveFragmentIndex_some frag _ k hidx),
    fun pending frag hobj hidx =>
      accumulateFragment_eq pending frag pending.length hobj
        (resolveFragmentIndex_missing frag _ hidx),
    rfl⟩
  unfold accumulateFragment
  rw [if_neg (by simp [hobj])]

/-- C2 witness: a first fragment carrying only index and id creates the
one accumulator with that id, and a primitive fragment is skipped,
through the theorem. -/
theorem C2_witness :
    accumulateFragment [] (Json.obj [("index", Json.num ⟨0, 0⟩), ("id", Json.str "c1")]) =
      [{ index := 0, id := some "c1", name := none, arguments := "" }] ∧
    accumulateFragment [] (Json.str "junk") = [] :=
  ⟨(C2_tool_call_accumulation.2.1 []
      (Json.obj [("index", Json.num ⟨0, 0⟩), ("id", Json.str "c1")]) 0 rfl rfl).trans rfl,
    C2_tool_call_accumulation.1 [] (Json.str "junk") rfl⟩

/-- C1: for every choice, the latest reasoning update is the last entry
of the reasoning-detail array whose text field is a string; when the
full latest text extends the buffered prefix, the emitted delta is the
suffix beyond that prefix, emitted only when non-empty, and the buffer
then holds the full latest text; when the latest text does not start
with the buffer, the entire non-empty latest text is emitted and becomes
the buffer; for the cumulative texts of the specification example the
emitted deltas are the first word, the continuation, nothing, and the
reset text, with the buffer equal to the latest full text after each
step. -/
theorem C1_reasoning_prefix_diffing :
    (∀ (content : Option String) (ds : List Json) (tcs : Option (List Json)) (fr : Option String),
      getLatestReasoningUpdate ⟨some ⟨content, some ds, tcs⟩, fr⟩ =
        (ds.filterMap mkReasoningUpdate).getLast?) ∧
    (∀ (st : StreamState) (ds : List Json) (u : ReasoningUpdate) (rest : String),
      getLatestReasoningUpdate ⟨some ⟨none, some ds, none⟩, none⟩ = some u →
      u.text = st.reasoningBuffer ++ rest →
      processChoice true st ⟨some ⟨none, some ds, none⟩, none⟩ =
        ({ st with reasoningBuffer := u.text },
          if rest = "" then [] else [OutEvent.thinking rest u.id u.metadata])) ∧
    (∀ (st : StreamState) (ds : List Json) (u : ReasoningUpdate),
      getLatestReasoningUpdate ⟨some ⟨none, some ds, none⟩, none⟩ = some u →
      jsStartsWith u.text st.reasoningBuffer = false →
      u.text ≠ "" →
      processChoice true st ⟨some ⟨none, some ds, none⟩, none⟩ =
        ({ st with reasoningBuffer := u.text },
          [OutEvent.thinking u.text u.id u.metadata])) ∧
    streamResponse true c1ExampleChunks =
      [OutEvent.thinking "Let" none none, OutEvent.thinking " me think" none none,
        OutEvent.thinking "Go" none none] ∧
    (processChunks true initialStreamState (c1ExampleChunks.take 1)).1.reasoningBuffer = "Let" ∧
    (processChunks true initialStreamState (c1ExampleChunks.take 2)).1.reasoningBuffer =
      "Let me think" ∧
    (processChunks true initialStreamState (c1ExampleChunks.take 3)).1.reasoningBuffer =
      "Let me think" ∧
    (processChunks true initialStreamState c1ExampleChunks).1.reasoningBuffer = "Go" :=
  ⟨getLatestReasoningUpdate_eq, processChoice_reasoning_prefix,
    processChoice_reasoning_reset, rfl, rfl, rfl, rfl, rfl⟩

/-- C1 witness: a first reasoning text extends the empty buffer and is
emitted whole, and a reset text replaces a buffer it does not extend,
through the theorem. -/
theorem C1_witness :
    processChoice true initialStreamState
      ⟨some ⟨none, some [Json.obj [("text", Json.str "Hi")]], none⟩, none⟩ =
      ({ initialStreamState with reasoningBuffer := "Hi" },
        [OutEvent.thinking "Hi" none none]) ∧
    processChoice true { reasoningBuffer := "abc", pending := [], toolCallsEmitted := false }
      ⟨some ⟨none, some [Json.obj [("text", Json.str "Go")]], none⟩, none⟩ =
      ({ reasoningBuffer := "Go", pending := [], toolCallsEmitted := false },
        [OutEvent.thinking "Go" none none]) :=
  ⟨(C1_reasoning_prefix_diffing.2.1 initialStreamState [Json.obj [("text", Json.str "Hi")]]
      ⟨"Hi", none, none⟩ "Hi" rfl rfl).trans
      (by rw [if_neg (by decide : ¬("Hi" : String) = "")]),
    (C1_reasoning_prefix_diffing.2.2.1
      { reasoningBuffer := "abc", pending := [], toolCallsEmitted := false }
      [Json.obj [("text", Json.str "Go")]] ⟨"Go", none, none⟩ rfl rfl (by decide)).trans rfl⟩

/-- C3: within one response the tool-call events of the output are
exactly the single batch reported at the first choice whose finish
reason signals tool calls, computed from everything accumulated up to
and including that choice, and no later finish signal adds any further
tool-call event; the batch itself is the accumulated calls sorted by
index ascending with incomplete calls dropped; a stream repeating the
finish signal on two later chunks still emits exactly one invocation. -/
theorem C3_at_most_once_tool_call_emission :
    (∀ (useThinking : Bool) (chunks : List Chunk),
      (streamResponse useThinking chunks).filter isToolCallEvent =
        (match (flattenChoices chunks).dropWhile (fun c => !isToolCallFinish c) with
         | [] => []
         | fin :: _ =>
           reportToolCalls
             (accumChoices
               ((flattenChoices chunks).takeWhile (fun c => !isToolCallFinish c) ++ [fin])
               []))) ∧
    (∀ pending : List AccumulatedToolCall,
      reportToolCalls pending = (sortByIndex pending).filterMap completedToolCallEvent) ∧
    (∀ pending : List AccumulatedToolCall,
      List.Sorted (fun a b => a.index ≤ b.index) (sortByIndex pending)) ∧
    (∀ pending : List AccumulatedToolCall, (sortByIndex pending).Perm pending) ∧
    streamResponse true
      [fragmentChunk [("index", Json.num ⟨0, 0⟩), ("id", Json.str "c1"),
        ("function", Json.obj [("name", Json.str "run")])],
       ⟨[⟨none, some "tool_calls"⟩]⟩, ⟨[⟨none, some "tool_calls"⟩]⟩] =
      [OutEvent.toolCall "c1" "run" (Json.obj [])] := by
  refine ⟨fun u chunks => ?_, reportToolCalls_eq, sortByIndex_sorted, sortByIndex_perm, rfl⟩
  show ((processChunks u initialStreamState chunks).2).filter isToolCallEvent = _
  rw [processChunks_eq_choices]
  exact processChoices_toolcalls u (flattenChoices chunks) initialStreamState rfl

end Minimax
